import Mathlib

/-!
# Verification of PSDevBot's configuration core (`src/config.rs`)

Shallow embedding of the two data structures in `src/config.rs`:

* `Config` / `RoomConfiguration` with `Config.rooms_for` (project → rooms/secret
  resolution, `config.rs` lines 144–167), `Config.all_rooms` (lines 135–142) and
  the pure construction logic of `Config::new` (lines 94–133);
* `UsernameAliases` with its case-insensitive `get`/`insert`
  (`config.rs` lines 26–45).

Modelling decisions:

* Rust's `HashMap<String, RoomConfiguration>` is embedded as an association
  list `List (String × RoomConfiguration)` probed with `List.lookup`
  (exact, case-sensitive key match, as `HashMap::get` does).
* `hashbrown::HashMap<UniCase<String>, String>` is embedded as an association
  list whose key comparison is `UniCase` equality, i.e. equality of the
  case-folded keys.  The `raw_entry().from_hash(..)` probe of
  `UsernameAliases::get` is an allocation-optimisation over the same
  observable behaviour: find the (unique) entry whose key case-folds equal to
  the query, else fall back to the query itself.  `HashMap::insert` replaces
  the value of an equal key (the stored key itself is not updated) and
  otherwise adds a fresh entry.
* `unicase::UniCase` case folding is modelled by `String.toLower`.
* `HashSet<&str>` (the result of `all_rooms`) is embedded as `Finset String`.
* `GitHubApi` lives outside `src/` (an external collaborator behind a mutex);
  the `github_api` field is modelled as `Option Unit` since no claim touches
  its contents.
* `Config::new` reads environment variables and parses JSON/URLs; that
  boundary is external.  Its pure construction logic is embedded as a function
  of the already-fetched optional environment values, returning `none` where
  the Rust code panics.
-/

namespace PSDevBot

/-- The case fold used by `unicase::UniCase` key comparison, modelled as
lowercasing the string character by character (`String.toLower`, written over
the underlying character list so that it evaluates by `decide`). -/
def caseFold (s : String) : String :=
  ⟨s.data.map Char.toLower⟩

/-- `UniCase`-equality of two strings: their case folds coincide.  This is the
equality predicate of the `hashbrown::HashMap<UniCase<String>, String>` keys. -/
def foldEq (a b : String) : Bool :=
  caseFold a == caseFold b

/-- `UsernameAliases` (`config.rs` lines 26–29): a map from `UniCase<String>`
to `String`, embedded as an association list keyed by the original strings and
compared via `foldEq`. -/
structure UsernameAliases where
  map : List (String × String)
deriving DecidableEq

/-- `#[derive(Default)]` on `UsernameAliases`: the empty map. -/
def UsernameAliases.default : UsernameAliases :=
  ⟨[]⟩

/-- `UsernameAliases::get` (`config.rs` lines 32–40): probe the map for an
entry whose key is `UniCase`-equal to `key`; return its value, or the query
string itself when there is none. -/
def UsernameAliases.get (m : UsernameAliases) (key : String) : String :=
  ((m.map.find? (fun p => foldEq p.1 key)).map Prod.snd).getD key

/-- `UsernameAliases::insert` (`config.rs` lines 42–44), i.e.
`HashMap::insert` under `UniCase` key equality: if an entry with a
`UniCase`-equal key exists its value is replaced (the stored key is kept),
otherwise a new entry is added. -/
def UsernameAliases.insert (m : UsernameAliases) (key value : String) :
    UsernameAliases :=
  if m.map.any (fun p => foldEq p.1 key) then
    ⟨m.map.map (fun p => if foldEq p.1 key then (p.1, value) else p)⟩
  else
    ⟨(key, value) :: m.map⟩

/-- A `UsernameAliases` table built by a sequence of inserts starting from the
default (empty) table, as the serde `visit_map` loop of `config.rs`
lines 61–70 does. -/
def UsernameAliases.ofInserts (ops : List (String × String)) : UsernameAliases :=
  ops.foldl (fun m p => m.insert p.1 p.2) UsernameAliases.default

/-- `RoomConfiguration` (`config.rs` lines 77–85): the per-project entry of the
parsed `PSDEVBOT_PROJECT_CONFIGURATION` blob.  `rooms` and `simple_rooms`
default to empty sequences when absent (handled by serde at the parsing
boundary); `secret` is an optional override of the global secret. -/
structure RoomConfiguration where
  rooms : List String
  simple_rooms : List String
  secret : Option String
deriving DecidableEq

/-- `RoomConfigurationRef` (`config.rs` lines 87–91): the resolution result of
`Config::rooms_for`.  In Rust it borrows from the store; the embedding copies
the borrowed data. -/
structure RoomConfigurationRef where
  rooms : List String
  simple_rooms : List String
  secret : String
deriving DecidableEq

/-- `Config` (`config.rs` lines 14–24).  `server` is kept as the raw URL
string, `room_configuration` as an association list (Rust: `HashMap`, keys
unique and matched exactly), and `github_api` as `Option Unit` (the
`Mutex<GitHubApi>` is an external collaborator outside `src/`). -/
structure Config where
  server : String
  user : String
  password : String
  secret : String
  port : Nat
  default_room_name : Option String
  room_configuration : List (String × RoomConfiguration)
  github_api : Option Unit
  username_aliases : UsernameAliases

/-- The pure construction logic of `Config::new` (`config.rs` lines 94–133),
as a function of the already-fetched environment values (environment access,
URL parsing and JSON parsing happen at the external boundary).  `port` is
`3030` when `PSDEVBOT_PORT` is unset; the function aborts (returns `none`,
where the Rust code panics) when neither `PSDEVBOT_ROOM` nor
`PSDEVBOT_PROJECT_CONFIGURATION` is provided; an absent project configuration
blob is replaced by the empty map, an absent alias blob by the empty table. -/
def Config.new (server user password secret : String) (port : Option Nat)
    (default_room_name : Option String)
    (room_configuration : Option (List (String × RoomConfiguration)))
    (github_api : Option Unit) (username_aliases : Option UsernameAliases) :
    Option Config :=
  if default_room_name.isNone && room_configuration.isNone then
    none
  else
    some
      { server := server
        user := user
        password := password
        secret := secret
        port := port.getD 3030
        default_room_name := default_room_name
        room_configuration := room_configuration.getD []
        github_api := github_api
        username_aliases := username_aliases.getD UsernameAliases.default }

/-- `Config::all_rooms` (`config.rs` lines 135–142): flat-map every project's
`rooms` chained with its `simple_rooms`, chain the optional default room, and
collect into a set (`HashSet<&str>` in Rust, `Finset String` here). -/
def Config.all_rooms (c : Config) : Finset String :=
  ((c.room_configuration.flatMap fun p => p.2.rooms ++ p.2.simple_rooms)
    ++ c.default_room_name.toList).toFinset

/-- `Config::rooms_for` (`config.rs` lines 144–167): exact lookup of the
project name; if found, its rooms and simple rooms with the secret override
(falling back to the global secret); if not found, the default room as a
one-element sequence (or nothing), no simple rooms, the global secret. -/
def Config.rooms_for (c : Config) (name : String) : RoomConfigurationRef :=
  match c.room_configuration.lookup name with
  | some rc =>
      { rooms := rc.rooms
        simple_rooms := rc.simple_rooms
        secret := rc.secret.getD c.secret }
  | none =>
      { rooms := c.default_room_name.toList
        simple_rooms := []
        secret := c.secret }

/-! ## Helper lemmas about `UniCase` equality and the alias table -/

theorem bool_eq_false {b : Bool} (h : ¬b = true) : b = false := by
  cases b
  · rfl
  · exact absurd rfl h

theorem foldEq_symm {a b : String} (h : foldEq a b = true) : foldEq b a = true := by
  simp only [foldEq, beq_iff_eq] at h ⊢
  exact h.symm

theorem foldEq_trans {a b c : String} (h1 : foldEq a b = true)
    (h2 : foldEq b c = true) : foldEq a c = true := by
  simp only [foldEq, beq_iff_eq] at h1 h2 ⊢
  exact h1.trans h2

theorem foldEq_false_of_left {k s p : String} (hks : foldEq k s = false)
    (hp : foldEq p k = true) : foldEq p s = false := by
  by_contra h
  have hps : foldEq p s = true := by
    cases hfe : foldEq p s
    · exact absurd hfe h
    · rfl
  have : foldEq k s = true := foldEq_trans (foldEq_symm hp) hps
  rw [this] at hks
  exact Bool.true_eq_false.mp hks

/-- In the `insert` replace branch: the probe for any `s` which is
`UniCase`-equal to the inserted key finds the replaced value. -/
theorem find_map_replace (l : List (String × String)) (k v s : String)
    (hks : foldEq k s = true) (hl : l.any (fun p => foldEq p.1 k) = true) :
    ((l.map fun p => if foldEq p.1 k then (p.1, v) else p).find?
        (fun p => foldEq p.1 s)).map Prod.snd = some v := by
  induction l with
  | nil => simp at hl
  | cons p t ih =>
    by_cases hp : foldEq p.1 k = true
    · have hps : foldEq p.1 s = true := foldEq_trans hp hks
      simp [hp, hps, List.find?_cons_of_pos]
    · have hpb : foldEq p.1 k = false := by
        cases hfe : foldEq p.1 k
        · rfl
        · exact absurd hfe hp
      have hps : foldEq p.1 s = false := by
        by_contra h
        have hps' : foldEq p.1 s = true := by
          cases hfe : foldEq p.1 s
          · exact absurd hfe h
          · rfl
        have : foldEq p.1 k = true := foldEq_trans hps' (foldEq_symm hks)
        exact hp this
      have hl2 : t.any (fun p => foldEq p.1 k) = true := by
        simpa [hpb] using hl
      simpa [hpb, hps] using ih hl2

/-- In the `insert` replace branch: the probe for an `s` which is not
`UniCase`-equal to the inserted key is unaffected by the replacement. -/
theorem find_map_replace_ne (l : List (String × String)) (k v s : String)
    (hks : foldEq k s = false) :
    (l.map fun p => if foldEq p.1 k then (p.1, v) else p).find?
        (fun p => foldEq p.1 s) =
      l.find? (fun p => foldEq p.1 s) := by
  induction l with
  | nil => rfl
  | cons p t ih =>
    by_cases hps : foldEq p.1 s = true
    · have hpk : foldEq p.1 k = false := by
        by_contra h
        have hpk' : foldEq p.1 k = true := by
          cases hfe : foldEq p.1 k
          · exact absurd hfe h
          · rfl
        have : foldEq p.1 s = false := foldEq_false_of_left hks hpk'
        rw [this] at hps
        exact Bool.false_eq_true.mp hps
      simp [hpk, hps]
    · have hps' : foldEq p.1 s = false := by
        cases hfe : foldEq p.1 s
        · rfl
        · exact absurd hfe hps
      have hfst : ((if foldEq p.1 k then (p.1, v) else p) : String × String).1
          = p.1 := by
        by_cases h : foldEq p.1 k = true <;> simp [h]
      simp only [List.map_cons]
      rw [List.find?_cons_of_neg, List.find?_cons_of_neg]
      · exact ih
      · simp [hps']
      · simp [hfst, hps']

/-- `get` after `insert`: queries `UniCase`-equal to the inserted key see the
new value; all other queries are unaffected. -/
theorem UsernameAliases.get_insert (m : UsernameAliases) (k v s : String) :
    (m.insert k v).get s = if foldEq k s then v else m.get s := by
  rw [UsernameAliases.insert]
  by_cases hany : m.map.any (fun p => foldEq p.1 k) = true
  · rw [if_pos hany]
    by_cases hks : foldEq k s = true
    · rw [if_pos hks, UsernameAliases.get]
      rw [find_map_replace m.map k v s hks hany]
      rfl
    · rw [if_neg hks, UsernameAliases.get, UsernameAliases.get]
      rw [find_map_replace_ne m.map k v s (bool_eq_false hks)]
  · rw [if_neg hany]
    by_cases hks : foldEq k s = true
    · rw [if_pos hks, UsernameAliases.get]
      have hfind : List.find? (fun p => foldEq p.1 s) ((k, v) :: m.map)
          = some (k, v) := List.find?_cons_of_pos _ hks
      show (Option.map Prod.snd
        (List.find? (fun p => foldEq p.1 s) ((k, v) :: m.map))).getD s = v
      rw [hfind]
      rfl
    · rw [if_neg hks, UsernameAliases.get, UsernameAliases.get]
      have hfind : List.find? (fun p => foldEq p.1 s) ((k, v) :: m.map)
          = List.find? (fun p => foldEq p.1 s) m.map :=
        List.find?_cons_of_neg _ hks
      show (Option.map Prod.snd
          (List.find? (fun p => foldEq p.1 s) ((k, v) :: m.map))).getD s
        = (Option.map Prod.snd (List.find? (fun p => foldEq p.1 s) m.map)).getD s
      rw [hfind]

theorem fst_replace (k v : String) (p : String × String) :
    ((if foldEq p.1 k then (p.1, v) else p) : String × String).1 = p.1 := by
  by_cases h : foldEq p.1 k = true <;> simp [h]

/-- The `HashMap` key-uniqueness invariant under `UniCase` equality: the case
folds of the stored keys are pairwise distinct, i.e. there is at most one live
entry per folded key. -/
def UsernameAliases.distinctFolds (m : UsernameAliases) : Prop :=
  m.map.Pairwise (fun a b => caseFold a.1 ≠ caseFold b.1)

theorem UsernameAliases.distinctFolds_default :
    UsernameAliases.default.distinctFolds :=
  List.Pairwise.nil

theorem UsernameAliases.distinctFolds_insert (m : UsernameAliases)
    (k v : String) (h : m.distinctFolds) : (m.insert k v).distinctFolds := by
  rw [UsernameAliases.insert]
  by_cases hany : m.map.any (fun p => foldEq p.1 k) = true
  · rw [if_pos hany]
    show (m.map.map fun p => if foldEq p.1 k then (p.1, v) else p).Pairwise _
    rw [List.pairwise_map]
    refine h.imp ?_
    intro a b hab
    rw [fst_replace, fst_replace]
    exact hab
  · rw [if_neg hany]
    show ((k, v) :: m.map).Pairwise _
    refine List.Pairwise.cons ?_ h
    intro b hb
    have hbk : foldEq b.1 k = false := by
      refine bool_eq_false ?_
      intro hcontra
      exact hany (List.any_eq_true.mpr ⟨b, hb, hcontra⟩)
    intro heq
    rw [foldEq, beq_eq_false_iff_ne] at hbk
    exact hbk heq.symm

theorem UsernameAliases.distinctFolds_ofInserts (ops : List (String × String)) :
    (UsernameAliases.ofInserts ops).distinctFolds := by
  rw [UsernameAliases.ofInserts]
  suffices h : ∀ m : UsernameAliases, m.distinctFolds →
      (ops.foldl (fun m p => m.insert p.1 p.2) m).distinctFolds from
    h _ UsernameAliases.distinctFolds_default
  induction ops with
  | nil => exact fun m hm => hm
  | cons p t ih =>
    intro m hm
    exact ih _ (UsernameAliases.distinctFolds_insert _ _ _ hm)

theorem UsernameAliases.ofInserts_concat (ops : List (String × String))
    (p : String × String) :
    UsernameAliases.ofInserts (ops ++ [p])
      = (UsernameAliases.ofInserts ops).insert p.1 p.2 := by
  rw [UsernameAliases.ofInserts, UsernameAliases.ofInserts, List.foldl_append]
  rfl

/-- The value of the most recent insert among `ops` whose key case-folds equal
to `k`, when there is one.  This is spec vocabulary used to state the claims
about alias tables built from insert sequences. -/
def UsernameAliases.lastInsertFor (ops : List (String × String)) (k : String) :
    Option String :=
  (ops.reverse.find? (fun p => foldEq p.1 k)).map Prod.snd

/-! ## Claim theorems about `UsernameAliases` -/

/-- Claim C3: for any key `K` inserted into the alias table with value `V`
(as the most recent insert whose key case-folds equal to `K`), `get S`
returns `V` for every string `S` that is case-insensitively equal to `K`. -/
theorem claim_C3_get_returns_last_inserted (ops : List (String × String))
    (K V S : String) (hlast : UsernameAliases.lastInsertFor ops K = some V)
    (hKS : foldEq S K = true) :
    (UsernameAliases.ofInserts ops).get S = V := by
  induction ops using List.reverseRecOn with
  | nil => simp [UsernameAliases.lastInsertFor] at hlast
  | append_singleton t p ih =>
    rw [UsernameAliases.ofInserts_concat, UsernameAliases.get_insert]
    rw [UsernameAliases.lastInsertFor] at hlast
    simp only [List.reverse_append, List.reverse_cons, List.reverse_nil,
      List.nil_append, List.singleton_append] at hlast
    by_cases hpK : foldEq p.1 K = true
    · have hfind : List.find? (fun q => foldEq q.1 K) (p :: t.reverse)
          = some p := List.find?_cons_of_pos _ hpK
      rw [hfind] at hlast
      have hpV : p.2 = V := by simpa using hlast
      have hpS : foldEq p.1 S = true := foldEq_trans hpK (foldEq_symm hKS)
      rw [if_pos hpS]
      exact hpV
    · have hfind : List.find? (fun q => foldEq q.1 K) (p :: t.reverse)
          = List.find? (fun q => foldEq q.1 K) t.reverse :=
        List.find?_cons_of_neg _ hpK
      rw [hfind] at hlast
      have hpS : foldEq p.1 S = false := by
        refine bool_eq_false ?_
        intro hcontra
        exact hpK (foldEq_trans hcontra hKS)
      rw [if_neg (by rw [hpS]; exact Bool.false_ne_true)]
      exact ih hlast

theorem claim_C3_witness :
    UsernameAliases.lastInsertFor [("Steve", "Steve the Great")] "STEVE"
        = some "Steve the Great" ∧
      foldEq "steve" "STEVE" = true ∧
      (UsernameAliases.ofInserts [("Steve", "Steve the Great")]).get "steve"
        = "Steve the Great" :=
  ⟨by decide, by decide,
    claim_C3_get_returns_last_inserted [("Steve", "Steve the Great")]
      "STEVE" "Steve the Great" "steve" (by decide) (by decide)⟩

/-- Claim C4: for every query `S` such that no key case-insensitively equal
to `S` was ever inserted, `get S` returns `S` itself, original casing intact;
`get` is a total function. -/
theorem claim_C4_get_unknown_is_identity (ops : List (String × String))
    (S : String) (h : ∀ p ∈ ops, foldEq p.1 S = false) :
    (UsernameAliases.ofInserts ops).get S = S := by
  induction ops using List.reverseRecOn with
  | nil => rfl
  | append_singleton t p ih =>
    rw [UsernameAliases.ofInserts_concat, UsernameAliases.get_insert]
    have hp : foldEq p.1 S = false := h p (by simp)
    rw [if_neg (by rw [hp]; exact Bool.false_ne_true)]
    exact ih fun q hq => h q (by simp [hq])

theorem claim_C4_witness :
    (∀ p ∈ [("Steve", "Steve the Great")], foldEq p.1 "stevie" = false) ∧
      (UsernameAliases.ofInserts [("Steve", "Steve the Great")]).get "stevie"
        = "stevie" :=
  ⟨by decide,
    claim_C4_get_unknown_is_identity [("Steve", "Steve the Great")] "stevie"
      (by decide)⟩

/-- Claim C6: after any sequence of inserts there is exactly one live entry
per case-folded key (the stored keys have pairwise-distinct folds); inserting
a key whose fold collides with an existing entry replaces the value without
growing the table; and a subsequent `get` for that folded key returns the most
recently inserted value. -/
theorem claim_C6_one_entry_per_fold (ops : List (String × String)) :
    (UsernameAliases.ofInserts ops).distinctFolds ∧
      (∀ k v s : String, foldEq k s = true →
        ((UsernameAliases.ofInserts ops).insert k v).get s = v) ∧
      ∀ k v : String,
        ((UsernameAliases.ofInserts ops).map.any fun p => foldEq p.1 k)
            = true →
          ((UsernameAliases.ofInserts ops).insert k v).map.length
            = (UsernameAliases.ofInserts ops).map.length := by
  refine ⟨UsernameAliases.distinctFolds_ofInserts ops, ?_, ?_⟩
  · intro k v s hks
    rw [UsernameAliases.get_insert, if_pos hks]
  · intro k v hany
    rw [UsernameAliases.insert, if_pos hany]
    exact List.length_map _ _

theorem claim_C6_witness :
    (UsernameAliases.ofInserts [("A", "x")]).distinctFolds ∧
      ((UsernameAliases.ofInserts [("A", "x")]).insert "a" "y").get "A" = "y" ∧
      ((UsernameAliases.ofInserts [("A", "x")]).insert "a" "y").map.length
        = (UsernameAliases.ofInserts [("A", "x")]).map.length :=
  ⟨(claim_C6_one_entry_per_fold [("A", "x")]).1,
    (claim_C6_one_entry_per_fold [("A", "x")]).2.1 "a" "y" "A" (by decide),
    (claim_C6_one_entry_per_fold [("A", "x")]).2.2 "a" "y" (by decide)⟩

/-! ## Claim theorems about `Config` -/

/-- The scenario configuration of spec §8:
`{"Proj":{"rooms":["a","b"],"secret":"s1"}}`, default room `"lobby"`, global
secret `"g"`.  Used by the witnesses. -/
def cfgA : Config :=
  { server := "wss://localhost/showdown/websocket"
    user := ""
    password := ""
    secret := "g"
    port := 3030
    default_room_name := some "lobby"
    room_configuration :=
      [("Proj", { rooms := ["a", "b"], simple_rooms := [], secret := some "s1" })]
    github_api := none
    username_aliases := UsernameAliases.default }

/-- The "silenced project" scenario configuration of spec §8:
`{"Quiet":{"rooms":[],"simple_rooms":[],"secret":"s2"}}`, with a default room
configured.  Used by the witnesses. -/
def cfgQuiet : Config :=
  { server := "wss://localhost/showdown/websocket"
    user := ""
    password := ""
    secret := "g"
    port := 3030
    default_room_name := some "lobby"
    room_configuration :=
      [("Quiet", { rooms := [], simple_rooms := [], secret := some "s2" })]
    github_api := none
    username_aliases := UsernameAliases.default }

/-- Unfolding of `rooms_for` on the found branch of the lookup. -/
theorem Config.rooms_for_lookup_some (c : Config) (P : String)
    (rc : RoomConfiguration) (h : c.room_configuration.lookup P = some rc) :
    c.rooms_for P
      = { rooms := rc.rooms
          simple_rooms := rc.simple_rooms
          secret := rc.secret.getD c.secret } := by
  unfold Config.rooms_for
  rw [h]

/-- Unfolding of `rooms_for` on the not-found branch of the lookup. -/
theorem Config.rooms_for_lookup_none (c : Config) (P : String)
    (h : c.room_configuration.lookup P = none) :
    c.rooms_for P
      = { rooms := c.default_room_name.toList
          simple_rooms := []
          secret := c.secret } := by
  unfold Config.rooms_for
  rw [h]

/-- Claim C1: for every project name absent from the configuration map,
`rooms_for` returns the one-element sequence holding the default room when one
is configured and the empty sequence otherwise, an empty `simple_rooms`, and
the global secret. -/
theorem claim_C1_absent_project (c : Config) (P : String)
    (h : c.room_configuration.lookup P = none) :
    ((c.rooms_for P).rooms = match c.default_room_name with
        | some d => [d]
        | none => []) ∧
      (c.rooms_for P).simple_rooms = [] ∧
      (c.rooms_for P).secret = c.secret := by
  rw [Config.rooms_for_lookup_none c P h]
  refine ⟨?_, rfl, rfl⟩
  cases c.default_room_name <;> rfl

theorem claim_C1_witness :
    cfgA.room_configuration.lookup "Other" = none ∧
      (((cfgA.rooms_for "Other").rooms = match cfgA.default_room_name with
          | some d => [d]
          | none => []) ∧
        (cfgA.rooms_for "Other").simple_rooms = [] ∧
        (cfgA.rooms_for "Other").secret = cfgA.secret) :=
  ⟨by decide, claim_C1_absent_project cfgA "Other" (by decide)⟩

/-- Claim C2: for every project name present in the configuration map,
`rooms_for` returns that project's stored `rooms` and `simple_rooms`
unchanged; its secret is the project's override when one is present (for every
store, i.e. regardless of the global secret and of the default room) and the
global secret otherwise. -/
theorem claim_C2_present_project (c : Config) (P : String)
    (rc : RoomConfiguration) (h : c.room_configuration.lookup P = some rc) :
    (c.rooms_for P).rooms = rc.rooms ∧
      (c.rooms_for P).simple_rooms = rc.simple_rooms ∧
      (∀ s, rc.secret = some s → (c.rooms_for P).secret = s) ∧
      (rc.secret = none → (c.rooms_for P).secret = c.secret) := by
  rw [Config.rooms_for_lookup_some c P rc h]
  refine ⟨rfl, rfl, ?_, ?_⟩
  · intro s hs
    rw [hs]
    rfl
  · intro hs
    rw [hs]
    rfl

theorem claim_C2_witness :
    cfgA.room_configuration.lookup "Proj"
        = some ⟨["a", "b"], [], some "s1"⟩ ∧
      (cfgA.rooms_for "Proj").rooms = ["a", "b"] ∧
      (cfgA.rooms_for "Proj").simple_rooms = [] ∧
      (cfgA.rooms_for "Proj").secret = "s1" :=
  ⟨by decide,
    (claim_C2_present_project cfgA "Proj" ⟨["a", "b"], [], some "s1"⟩
      (by decide)).1,
    (claim_C2_present_project cfgA "Proj" ⟨["a", "b"], [], some "s1"⟩
      (by decide)).2.1,
    (claim_C2_present_project cfgA "Proj" ⟨["a", "b"], [], some "s1"⟩
      (by decide)).2.2.1 "s1" rfl⟩

/-- Claim C5: `all_rooms` is exactly the deduplicated union of every
project's `rooms` and `simple_rooms`, plus the default room when configured:
a room is in the result iff it occurs in some project entry's `rooms` or
`simple_rooms` or is the configured default room.  (The result is a set, so
it is deduplicated by construction.) -/
theorem claim_C5_all_rooms_union (c : Config) (r : String) :
    r ∈ c.all_rooms ↔
      ((∃ p ∈ c.room_configuration, r ∈ p.2.rooms ∨ r ∈ p.2.simple_rooms) ∨
        c.default_room_name = some r) := by
  rw [Config.all_rooms]
  simp [List.mem_toFinset, List.mem_append, List.mem_flatMap,
    Option.mem_toList, Option.mem_def]

/-- Claim C7: a project entry with empty rooms, empty simple rooms and a
secret override resolves to empty rooms, empty simple rooms and the override
secret — the default room is not substituted and the entry is not treated as
an error. -/
theorem claim_C7_silenced_project (c : Config) (P s : String)
    (h : c.room_configuration.lookup P = some ⟨[], [], some s⟩) :
    (c.rooms_for P).rooms = [] ∧
      (c.rooms_for P).simple_rooms = [] ∧
      (c.rooms_for P).secret = s := by
  rw [Config.rooms_for_lookup_some c P ⟨[], [], some s⟩ h]
  exact ⟨rfl, rfl, rfl⟩

theorem claim_C7_witness :
    cfgQuiet.room_configuration.lookup "Quiet" = some ⟨[], [], some "s2"⟩ ∧
      (cfgQuiet.rooms_for "Quiet").rooms = [] ∧
      (cfgQuiet.rooms_for "Quiet").simple_rooms = [] ∧
      (cfgQuiet.rooms_for "Quiet").secret = "s2" :=
  ⟨by decide, claim_C7_silenced_project cfgQuiet "Quiet" "s2" (by decide)⟩

/-- Claim C8: constructing the store with neither a default room name nor a
project configuration supplied aborts (the Rust code panics; the embedding
returns `none`) instead of producing a store. -/
theorem claim_C8_construction_requires_room_or_projects
    (server user password secret : String) (port : Option Nat)
    (github_api : Option Unit) (username_aliases : Option UsernameAliases) :
    Config.new server user password secret port none none github_api
      username_aliases = none :=
  rfl

/-- Claim C9: the secret of every resolution result is present — it is always
either the global secret or a configured project override; there is no input
for which it is absent. -/
theorem claim_C9_secret_always_present (c : Config) (P : String) :
    (c.rooms_for P).secret = c.secret ∨
      ∃ rc s, c.room_configuration.lookup P = some rc ∧
        rc.secret = some s ∧ (c.rooms_for P).secret = s := by
  cases h : c.room_configuration.lookup P with
  | none =>
    left
    rw [Config.rooms_for_lookup_none c P h]
  | some rc =>
    cases hs : rc.secret with
    | none =>
      left
      rw [Config.rooms_for_lookup_some c P rc h]
      show rc.secret.getD c.secret = c.secret
      rw [hs]
      rfl
    | some s =>
      right
      refine ⟨rc, s, rfl, hs, ?_⟩
      rw [Config.rooms_for_lookup_some c P rc h]
      show rc.secret.getD c.secret = s
      rw [hs]
      rfl

/-- Claim C10: for every project name present in the configuration map the
resolved `rooms` is exactly the stored sequence — the default room is never
appended, even when the stored sequence is empty and a default room is
configured. -/
theorem claim_C10_no_default_appended (c : Config) (P : String)
    (rc : RoomConfiguration) (h : c.room_configuration.lookup P = some rc) :
    (c.rooms_for P).rooms = rc.rooms := by
  rw [Config.rooms_for_lookup_some c P rc h]

theorem claim_C10_witness :
    cfgQuiet.default_room_name = some "lobby" ∧
      cfgQuiet.room_configuration.lookup "Quiet" = some ⟨[], [], some "s2"⟩ ∧
      (cfgQuiet.rooms_for "Quiet").rooms = [] :=
  ⟨rfl, by decide,
    claim_C10_no_default_appended cfgQuiet "Quiet" ⟨[], [], some "s2"⟩
      (by decide)⟩

end PSDevBot
